import Mathlib

/-!
Shallow embedding of the formula-student telemetry variable matcher
(`match_variables.py`) and of the high-confidence export resolver
(`export_matched_data.py`), together with theorems settling the frozen
claims about the natural-language specification.

Strings are modelled as Lean `String` (lists of characters); Python
`str.lower`/`str.upper` are modelled by the ASCII `Char.toLower`/`Char.toUpper`
(all header names handled by the program are ASCII).  Confidence values are
modelled as rationals: every confidence literal in the source is an exact
decimal, and the one arithmetic operation on confidences (`1.0 - 0.05`)
is exact in both models.
-/

namespace TelemetryMatcher

/-- Tests whether the first list is an initial segment of the second
(character-wise equality), used to embed the Python substring test. -/
def leadsWith : List Char → List Char → Bool
  | [], _ => true
  | _ :: _, [] => false
  | a :: as, b :: bs => a == b && leadsWith as bs

/-- Embeds the Python substring test `pat in s` on character lists. -/
def containsSub (pat : List Char) : List Char → Bool
  | [] => pat.isEmpty
  | c :: rest => leadsWith pat (c :: rest) || containsSub pat rest

/-- Embeds the Python substring test `pat in s` on strings. -/
def containsStr (pat s : String) : Bool :=
  containsSub pat.toList s.toList

/-- Character-list form of `normalize_text`: lowercase, then keep only
the characters in `[a-z0-9]` (Python `re.sub(r'[^a-z0-9]', '', text.lower())`). -/
def normalizeL (l : List Char) : List Char :=
  (l.map Char.toLower).filter fun c => c.isLower || c.isDigit

/-- `VehicleTelemetryMatcher.normalize_text`: lowercase and strip every
character outside `[a-z0-9]`. -/
def normalize_text (s : String) : String :=
  String.mk (normalizeL s.toList)

/-- `VehicleTelemetryMatcher.remove_whitespace`: remove all whitespace
(Python `re.sub(r'\s+', '', text)`). -/
def remove_whitespace (s : String) : String :=
  String.mk (s.toList.filter fun c => !c.isWhitespace)

/-- One left-to-right scan embedding `re.sub(r'\([^)]*\)', '', text)`.
The flag records being inside a parenthesized group that is guaranteed to
close; a `(` opens such a group only when a `)` occurs later (otherwise the
regex has no match starting there and the character is kept). -/
def stripParensAux : List Char → Bool → List Char
  | [], _ => []
  | c :: rest, true => if c = ')' then stripParensAux rest false else stripParensAux rest true
  | c :: rest, false =>
      if c = '(' && rest.contains ')' then stripParensAux rest true
      else c :: stripParensAux rest false

/-- Removal of parenthesized unit annotations, as in `extract_tokens`. -/
def stripParens (l : List Char) : List Char :=
  stripParensAux l false

/-- Python `\w` on ASCII text: alphanumeric or underscore. -/
def isWordChar (c : Char) : Bool :=
  c.isAlphanum || c = '_'

/-- Splits a character list into its maximal runs of word characters,
embedding `re.findall(r'\w+', normalized)`.  The accumulator holds the
current run reversed. -/
def splitRunsAux : List Char → List Char → List (List Char)
  | [], acc => if acc = [] then [] else [acc.reverse]
  | c :: rest, acc =>
    if isWordChar c then splitRunsAux rest (c :: acc)
    else if acc = [] then splitRunsAux rest []
    else acc.reverse :: splitRunsAux rest []

/-- Maximal word-character runs of a character list. -/
def splitRuns (l : List Char) : List (List Char) :=
  splitRunsAux l []

/-- The fixed stopword set of `extract_tokens`. -/
def stopwords : List String :=
  ["the", "of", "for", "at", "in", "on", "to", "a", "an", "and", "is"]

/-- `VehicleTelemetryMatcher.extract_tokens`: strip parenthesized units,
normalize, split into alphanumeric runs, drop stopwords. -/
def extract_tokens (s : String) : List String :=
  ((splitRuns (normalizeL (stripParens s.toList))).map fun l => String.mk l).filter
    fun t => !(stopwords.contains t)

/-- The token set handed to the similarity scorer (`set(...)` in Python). -/
def tokensOf (s : String) : Finset String :=
  (extract_tokens s).toFinset

/-- Motec position notation to CarSim notation (`position_map`). -/
def map_position_motec_to_carsim : String → String
  | "FL" => "L1"
  | "FR" => "R1"
  | "RL" => "L2"
  | "RR" => "R2"
  | _ => ""

/-- CarSim position notation back to Motec notation (`reverse_position_map`). -/
def reverse_position_map : String → String
  | "L1" => "FL"
  | "R1" => "FR"
  | "L2" => "RL"
  | "R2" => "RR"
  | _ => ""

/-- `VehicleTelemetryMatcher.extract_position`: scan the uppercased name for
the Motec codes FL, FR, RL, RR in that order, then for the CarSim codes
L1, R1, L2, R2 (translated back to Motec notation); empty when none occurs. -/
def extract_position (s : String) : String :=
  let u := s.toList.map Char.toUpper
  if containsSub "FL".toList u then "FL"
  else if containsSub "FR".toList u then "FR"
  else if containsSub "RL".toList u then "RL"
  else if containsSub "RR".toList u then "RR"
  else if containsSub "L1".toList u then "FL"
  else if containsSub "R1".toList u then "FR"
  else if containsSub "L2".toList u then "RL"
  else if containsSub "R2".toList u then "RR"
  else ""

/-- The `semantic_equivalents` table: each entry is a key together with its
equivalent tokens; key and equivalents form one semantic-equivalence class. -/
def semantic_equivalents : List (String × List String) :=
  [("gforce", ["accel", "acceleration", "a"]),
   ("gyro", ["rate", "av", "angularvelocity"]),
   ("speed", ["velocity", "v", "spin"]),
   ("susp", ["suspension", "jounce", "compression", "cmp"]),
   ("brake", ["bk", "pbk"]),
   ("temp", ["temperature", "t"]),
   ("rotor", ["rtr"]),
   ("wheel", ["whl"]),
   ("engine", ["eng"]),
   ("throttle", ["thr"]),
   ("steer", ["str"]),
   ("fuel", ["qfuel", "mfuel"])]

/-- Two tokens lie in a common semantic-equivalence class (the loop body
condition `(t1 == key or t1 in equivalents) and (t2 == key or t2 in
equivalents)`; the `break` makes one pair count once even if several classes
apply, so only existence matters). -/
def sameClass (a b : String) : Bool :=
  semantic_equivalents.any fun kc =>
    (a == kc.1 || kc.2.contains a) && (b == kc.1 || kc.2.contains b)

/-- The nested loop of `semantic_similarity` counting semantically
equivalent cross pairs of distinct tokens. -/
def semantic_matches (t1 t2 : Finset String) : ℕ :=
  ∑ a ∈ t1, ∑ b ∈ t2, if a ≠ b ∧ sameClass a b then 1 else 0

/-- `VehicleTelemetryMatcher.semantic_similarity`: 0 when either token set is
empty; otherwise Jaccard overlap plus a semantic boost of 0.1 per
equivalent pair capped at 0.3, the total capped at 1. -/
def semantic_similarity (s1 s2 : String) : ℚ :=
  let t1 := tokensOf s1
  let t2 := tokensOf s2
  if t1 = ∅ ∨ t2 = ∅ then 0
  else
    let direct : ℚ :=
      if 0 < (t1 ∪ t2).card then mkRat ((t1 ∩ t2).card : ℤ) ((t1 ∪ t2).card) else 0
    min (direct + min (mkRat (semantic_matches t1 t2 : ℤ) 10) (mkRat 3 10)) 1

/-- `VehicleTelemetryMatcher.get_dictionary_description`: longhand of the
first dictionary row whose whitespace-stripped shorthand equals the
whitespace-stripped code, else the code itself. -/
def get_dictionary_description (dict : List (String × String)) (code : String) : String :=
  match dict.find? (fun e => remove_whitespace e.1 == remove_whitespace code) with
  | some e => e.2
  | none => code

/-- A Match record as built by the matching passes. -/
structure Match where
  motec : String
  carsim : String
  conf : ℚ
  mtype : String
  desc : String
  notes : String
deriving DecidableEq, Repr

/-- The Match record built by the exact pass for one pair. -/
def mkExact (mv cv : String) : Match :=
  ⟨mv, cv, 1, "Exact", "Identical variable names",
    "No dictionary needed - exact string match"⟩

/-- `match_exact_names` (step 1): one Match of confidence 1.0 and type
Exact for every source/target pair with equal normalized names. -/
def match_exact_names (motec carsim : List String) : List Match :=
  motec.flatMap fun mv =>
    carsim.flatMap fun cv =>
      if normalize_text mv = normalize_text cv then [mkExact mv cv] else []

/-- The `accel_patterns` table of `match_accelerations`. -/
def accel_patterns : List (List String × List String × String) :=
  [(["C185 G Force Lat", "F IMU Vehicle Accel Lateral", "R IMU Vehicle Accel Lateral"],
    ["Ay_SM", "Ay_Rd"], "Lateral (Y)"),
   (["C185 G Force Long", "F IMU Vehicle Accel Long", "R IMU Vehicle Accel Long"],
    ["Ax_SM", "Ax_Rd"], "Longitudinal (X)"),
   (["C185 G Force Vert", "F IMU Vehicle Accel Vert", "R IMU Vehicle Accel Vert"],
    ["Az_SM", "Az_Rd"], "Vertical (Z)")]

/-- `match_accelerations` (step 2): the confidence base 1.0 drops by 0.05
for road-frame targets (suffix `_Rd`). -/
def match_accelerations (motec carsim : List String) (dict : List (String × String)) :
    List Match :=
  accel_patterns.flatMap fun pat =>
    motec.flatMap fun mv =>
      if pat.1.any (fun p => containsStr p mv) then
        pat.2.1.flatMap fun cv =>
          if cv ∈ carsim then
            [⟨mv, cv, if containsStr "_Rd" cv then 1 - mkRat 5 100 else 1, "Acceleration",
              get_dictionary_description dict cv, pat.2.2 ++ " acceleration"⟩]
          else []
      else []

/-- The `gyro_patterns` table of `match_gyroscopes`. -/
def gyro_patterns : List (List String × List String × String) :=
  [(["F IMU Gyro Roll Velocity", "R IMU Gyro Roll Velocity"], ["AVx", "AV_R"], "Roll (X)"),
   (["F IMU Gyro Pitch Velocity", "R IMU Gyro Pitch Velocity"], ["AVy", "AV_P"], "Pitch (Y)"),
   (["F IMU Gyro Yaw Velocity", "R IMU Gyro Yaw Velocity"], ["AVz", "AV_Y"], "Yaw (Z)")]

/-- `match_gyroscopes` (step 3): confidence 1.0; an underscore in the target
name marks the Euler-frame variant in the note. -/
def match_gyroscopes (motec carsim : List String) (dict : List (String × String)) :
    List Match :=
  gyro_patterns.flatMap fun pat =>
    motec.flatMap fun mv =>
      if pat.1.any (fun p => containsStr p mv) then
        pat.2.1.flatMap fun cv =>
          if cv ∈ carsim then
            [⟨mv, cv, 1, "Gyroscope", get_dictionary_description dict cv,
              pat.2.2 ++ " rate (" ++ (if containsStr "_" cv then "Euler" else "body-fixed")
              ++ ")"⟩]
          else []
      else []

/-- `match_wheel_speeds` (step 4): position-translated target `AVy_<pos>`
at confidence 1.0. -/
def match_wheel_speeds (motec carsim : List String) (dict : List (String × String)) :
    List Match :=
  motec.flatMap fun mv =>
    if containsStr "Wheel Speed" mv then
      let mp := extract_position mv
      if mp ≠ "" then
        let cp := map_position_motec_to_carsim mp
        let cv := "AVy_" ++ cp
        if cv ∈ carsim then
          [⟨mv, cv, 1, "Wheel", get_dictionary_description dict cv,
            "Wheel spin (rpm) - " ++ mp ++ "=" ++ cp⟩]
        else []
      else []
    else []

/-- The per-variable body of `match_suspension` (step 5): a primary jounce
candidate `Jnc_<pos>` at confidence 1.0 and a secondary total-compression
candidate `CmpT_<pos>` at confidence 0.95, each only when present in the
CarSim header list. -/
def suspension_candidates (carsim : List String) (dict : List (String × String))
    (mv : String) : List Match :=
  if containsStr "Susp Pos" mv then
    let mp := extract_position mv
    if mp ≠ "" then
      let cp := map_position_motec_to_carsim mp
      (if ("Jnc_" ++ cp) ∈ carsim then
        [⟨mv, "Jnc_" ++ cp, 1, "Suspension",
          get_dictionary_description dict ("Jnc_" ++ cp),
          "Jounce (compression) - " ++ mp ++ "=" ++ cp⟩]
      else []) ++
      (if ("CmpT_" ++ cp) ∈ carsim then
        [⟨mv, "CmpT_" ++ cp, mkRat 95 100, "Suspension",
          get_dictionary_description dict ("CmpT_" ++ cp),
          "Total compression - " ++ mp ++ "=" ++ cp⟩]
      else [])
    else []
  else []

/-- `match_suspension` (step 5). -/
def match_suspension (motec carsim : List String) (dict : List (String × String)) :
    List Match :=
  motec.flatMap (suspension_candidates carsim dict)

/-- The `brake_mappings` table of `match_brake_pressure`. -/
def brake_mappings : List (String × List String × String) :=
  [("Brake Pressure Front", ["L1", "R1"], "Front"),
   ("Brake Pressure Rear", ["L2", "R2"], "Rear")]

/-- `match_brake_pressure` (step 6): targets `PbkCh_<pos>` at confidence 0.95. -/
def match_brake_pressure (motec carsim : List String) (dict : List (String × String)) :
    List Match :=
  brake_mappings.flatMap fun bm =>
    motec.flatMap fun mv =>
      if containsStr bm.1 mv then
        bm.2.1.flatMap fun pos =>
          if ("PbkCh_" ++ pos) ∈ carsim then
            [⟨mv, "PbkCh_" ++ pos, mkRat 95 100, "Brake",
              get_dictionary_description dict ("PbkCh_" ++ pos),
              bm.2.2 ++ " brake pressure - " ++ reverse_position_map pos ++ "=" ++ pos⟩]
          else []
      else []

/-- `match_rotor_temperatures` (step 7): target `T_Rtr_<pos>`, confidence 1.0
for `Max` variants and 0.95 otherwise. -/
def match_rotor_temperatures (motec carsim : List String) (dict : List (String × String)) :
    List Match :=
  motec.flatMap fun mv =>
    if containsStr "Rotor Temp" mv then
      let mp := extract_position mv
      if mp ≠ "" then
        let cp := map_position_motec_to_carsim mp
        if ("T_Rtr_" ++ cp) ∈ carsim then
          [⟨mv, "T_Rtr_" ++ cp, if containsStr "Max" mv then 1 else mkRat 95 100,
            "Temperature", get_dictionary_description dict ("T_Rtr_" ++ cp),
            "Rotor temperature " ++ mp ++ "=" ++ cp ++ " - " ++
              (if containsStr "Max" mv then "Max of sensors"
               else "Multiple sensors to single output")⟩]
        else []
      else []
    else []

/-- The `engine_mappings` table of `match_engine_powertrain`, with the
Python `zip` of target candidates and confidences already paired. -/
def engine_mappings : List (String × List (String × ℚ)) :=
  [("Engine Speed", [("AV_Eng", 1)]),
   ("Throttle Position", [("Throttle", 1), ("Thr_Eng", mkRat 98 100), ("Thr_Intl", mkRat 95 100)]),
   ("Gear", [("GearStat", 1), ("Gear_CL", mkRat 90 100), ("Gear_OL", mkRat 85 100)])]

/-- `match_engine_powertrain` (step 8). -/
def match_engine_powertrain (motec carsim : List String) (dict : List (String × String)) :
    List Match :=
  engine_mappings.flatMap fun em =>
    motec.flatMap fun mv =>
      if containsStr em.1 mv then
        em.2.flatMap fun cc =>
          if cc.1 ∈ carsim then
            [⟨mv, cc.1, cc.2, "Engine/Powertrain", get_dictionary_description dict cc.1,
              em.1 ++ " measurement"⟩]
          else []
      else []

/-- The `gps_mappings` table of `match_gps`. -/
def gps_mappings : List (String × List (String × ℚ)) :=
  [("GPS Altitude", [("GPS_Altitude", 1)]),
   ("GPS Latitude", [("GPS_Lat", 1), ("GPS_LatA", mkRat 95 100)]),
   ("GPS Longitude", [("GPS_Long", 1), ("GPSlongA", 1)]),
   ("GPS Speed", [("Vx", mkRat 85 100)])]

/-- `match_gps` (step 9). -/
def match_gps (motec carsim : List String) (dict : List (String × String)) : List Match :=
  gps_mappings.flatMap fun em =>
    motec.flatMap fun mv =>
      if containsStr em.1 mv then
        em.2.flatMap fun cc =>
          if cc.1 ∈ carsim then
            [⟨mv, cc.1, cc.2, "GPS", get_dictionary_description dict cc.1,
              "GPS " ++ em.1⟩]
          else []
      else []

/-- The `velocity_mappings` table of `match_velocity`. -/
def velocity_mappings : List (String × List (String × ℚ)) :=
  [("Ground Speed", [("Vx", 1), ("Vx_SM", 1), ("Vx_Fwd", mkRat 95 100)]),
   ("Drive Speed", [("Vx", mkRat 90 100)])]

/-- `match_velocity` (step 10). -/
def match_velocity (motec carsim : List String) (dict : List (String × String)) :
    List Match :=
  velocity_mappings.flatMap fun em =>
    motec.flatMap fun mv =>
      if containsStr em.1 mv then
        em.2.flatMap fun cc =>
          if cc.1 ∈ carsim then
            [⟨mv, cc.1, cc.2, "Velocity", get_dictionary_description dict cc.1,
              "Longitudinal velocity"⟩]
          else []
      else []

/-- The `fuel_mappings` table of `match_fuel`. -/
def fuel_mappings : List (String × String × ℚ) :=
  [("Fuel Flow", "Qfuel", 1), ("Fuel Used M1", "Mfuel", 1)]

/-- `match_fuel` (step 11). -/
def match_fuel (motec carsim : List String) (dict : List (String × String)) : List Match :=
  fuel_mappings.flatMap fun em =>
    motec.flatMap fun mv =>
      if containsStr em.1 mv then
        if em.2.1 ∈ carsim then
          [⟨mv, em.2.1, em.2.2, "Fuel", get_dictionary_description dict em.2.1,
            "Fuel measurement"⟩]
        else []
      else []

/-- The `distance_mappings` table of `match_distance`. -/
def distance_mappings : List (String × String × ℚ) :=
  [("Odometer", "Station", mkRat 90 100),
   ("Trip Distance", "Station", mkRat 85 100),
   ("Distance", "Station", mkRat 90 100),
   ("Lap Distance", "Sta_Road", mkRat 80 100)]

/-- `match_distance` (step 12); the guard in the source is
`mapping == motec_var or mapping in motec_var`, kept verbatim even though
the first disjunct is subsumed by the second. -/
def match_distance (motec carsim : List String) (dict : List (String × String)) :
    List Match :=
  distance_mappings.flatMap fun em =>
    motec.flatMap fun mv =>
      if em.1 = mv ∨ containsStr em.1 mv then
        if em.2.1 ∈ carsim then
          [⟨mv, em.2.1, em.2.2, "Distance", get_dictionary_description dict em.2.1,
            "Distance/path measurement"⟩]
        else []
      else []

/-- The steering candidate table of `match_steering`. -/
def steering_vars : List (String × ℚ × String) :=
  [("Steer_SW", mkRat 95 100, "Steering wheel angle"),
   ("Steer_L1", mkRat 90 100, "FL wheel steer angle"),
   ("Steer_R1", mkRat 90 100, "FR wheel steer angle")]

/-- `match_steering` (step 13). -/
def match_steering (motec carsim : List String) (dict : List (String × String)) :
    List Match :=
  motec.flatMap fun mv =>
    if containsStr "Steered Angle" mv ∨ containsStr "Steer Angle" mv then
      steering_vars.flatMap fun sv =>
        if sv.1 ∈ carsim then
          [⟨mv, sv.1, sv.2.1, "Steering", get_dictionary_description dict sv.1, sv.2.2⟩]
        else []
    else []

/-- `VehicleTelemetryMatcher.run_matching`: the thirteen passes concatenated
in their fixed order. -/
def run_matching (motec carsim : List String) (dict : List (String × String)) :
    List Match :=
  match_exact_names motec carsim ++
  match_accelerations motec carsim dict ++
  match_gyroscopes motec carsim dict ++
  match_wheel_speeds motec carsim dict ++
  match_suspension motec carsim dict ++
  match_brake_pressure motec carsim dict ++
  match_rotor_temperatures motec carsim dict ++
  match_engine_powertrain motec carsim dict ++
  match_gps motec carsim dict ++
  match_velocity motec carsim dict ++
  match_fuel motec carsim dict ++
  match_distance motec carsim dict ++
  match_steering motec carsim dict

/-- A skipped-duplicate record as built by `export_high_confidence_matches`. -/
structure SkipRec where
  motec : String
  carsim : String
  conf : ℚ
  reason : String
deriving DecidableEq, Repr

/-- The deduplication walk of `export_high_confidence_matches` (step 2.5):
keep a match only when its CarSim target has not been seen, otherwise move
it to the skipped side. -/
def dedup_walk : List Match → List String → List Match × List Match
  | [], _ => ([], [])
  | m :: rest, seen =>
    if m.carsim ∈ seen then
      let p := dedup_walk rest seen
      (p.1, m :: p.2)
    else
      let p := dedup_walk rest (m.carsim :: seen)
      (m :: p.1, p.2)

/-- The confidence-descending comparison used for the sort of
`export_high_confidence_matches`. -/
def confGE (a b : Match) : Prop := b.conf ≤ a.conf

instance : DecidableRel confGE := fun a b => inferInstanceAs (Decidable (b.conf ≤ a.conf))

/-- The resolver core of `export_high_confidence_matches`: filter by the
confidence threshold, sort by confidence descending, then walk the sorted
sequence keeping the first match per CarSim target and recording every
later duplicate on the skipped list with reason "Duplicate CarSim output".
The source sorts with a library quicksort whose tie order is not fixed by
the repository; every property proved below is invariant under the order
of equal-confidence matches, so a confidence-descending insertion sort
stands in for it. -/
def export_high_confidence_matches (threshold : ℚ) (ms : List Match) :
    List Match × List SkipRec :=
  let filtered := ms.filter fun m => decide (threshold ≤ m.conf)
  let sorted := filtered.insertionSort confGE
  let p := dedup_walk sorted []
  (p.1, p.2.map fun m => ⟨m.motec, m.carsim, m.conf, "Duplicate CarSim output"⟩)

/-- The claim-set threaded through the generic passes: source and target
names already consumed. -/
structure ClaimState where
  claimedS : List String
  claimedT : List String

/-- Modelled from the spec: the generic dictionary-pass match types
(Dictionary-Exact above 0.8, Dictionary-High above 0.7, Dictionary-Medium
above 0.5); the procedural three-pass matcher is not among the sources. -/
def dict_match_type (sc : ℚ) : String :=
  if mkRat 4 5 < sc then "Dictionary-Exact"
  else if mkRat 7 10 < sc then "Dictionary-High"
  else "Dictionary-Medium"

/-- Modelled from the spec: the inner loop of the DictionaryPass for one
source — compare the source longhand against every unclaimed target
longhand, emit a Match when the score exceeds 0.5 and on emission mark both
source and target claimed (so a claimed source emits nothing further). -/
def dict_inner (dict : List (String × String)) (s : String) :
    List String → ClaimState → ClaimState × List Match
  | [], st => (st, [])
  | t :: ts, st =>
    let sc := semantic_similarity (get_dictionary_description dict s)
      (get_dictionary_description dict t)
    if s ∉ st.claimedS ∧ t ∉ st.claimedT ∧ mkRat 1 2 < sc then
      let r := dict_inner dict s ts ⟨s :: st.claimedS, t :: st.claimedT⟩
      (r.1, ⟨s, t, sc, dict_match_type sc, get_dictionary_description dict t,
        "Dictionary match"⟩ :: r.2)
    else
      dict_inner dict s ts st

/-- Modelled from the spec: the DictionaryPass of the procedural matcher —
for each unclaimed source, expand to longhand and compare against every
unclaimed target, emitting typed Matches and updating the claim-set. -/
def dictionary_pass (dict : List (String × String)) :
    List String → List String → ClaimState → ClaimState × List Match
  | [], _, st => (st, [])
  | s :: ss, targets, st =>
    let r := dict_inner dict s targets st
    let r2 := dictionary_pass dict ss targets r.1
    (r2.1, r.2 ++ r2.2)

/-- Modelled from the spec: the SemanticPass of the procedural matcher —
for each still-unclaimed source, score it against every still-unclaimed
target description and keep all candidates above 0.5 and within 0.1 of the
best score of that source; it consults the claim-set but enforces no 1:1
restriction of its own. -/
def semantic_pass (dict : List (String × String)) (sources targets : List String)
    (st : ClaimState) : List Match :=
  sources.flatMap fun s =>
    if s ∈ st.claimedS then []
    else
      let cands := targets.filter fun t => decide (t ∉ st.claimedT)
      let score := fun t => semantic_similarity s (get_dictionary_description dict t)
      let best := (cands.map score).foldr max 0
      (cands.filter fun t => decide (mkRat 1 2 < score t ∧ best - mkRat 1 10 ≤ score t)).map
        fun t => ⟨s, t, score t, "Semantic", get_dictionary_description dict t,
          "Semantic match"⟩

/-- Two concrete matches both targeting `Jnc_L1` at confidences 1.0 and
0.95, the deduplication example of the specification; used as witness
input for the resolver theorems. -/
def demo_matches : List Match :=
  [⟨"FL Susp Pos", "Jnc_L1", 1, "Suspension", "Jnc_L1", "Jounce (compression) - FL=L1"⟩,
   ⟨"FL Susp Pos 2", "Jnc_L1", mkRat 95 100, "Suspension", "Jnc_L1",
     "Total compression - FL=L1"⟩]

end TelemetryMatcher

namespace TelemetryMatcher

/-! ### Tokenizer lemmas (claim C10) -/

lemma word_of_lower_or_digit {c : Char} (h : (c.isLower || c.isDigit) = true) :
    isWordChar c = true := by
  unfold isWordChar Char.isAlphanum Char.isAlpha
  rcases Bool.or_eq_true_iff.mp h with h1 | h1 <;> simp [h1]

lemma mem_normalizeL_word {l : List Char} {c : Char} (h : c ∈ normalizeL l) :
    isWordChar c = true := by
  unfold normalizeL at h
  exact word_of_lower_or_digit (List.mem_filter.mp h).2

lemma splitRunsAux_all_word :
    ∀ (l acc : List Char), (∀ c ∈ l, isWordChar c = true) →
      splitRunsAux l acc = if l = [] ∧ acc = [] then [] else [acc.reverse ++ l] := by
  intro l
  induction l with
  | nil =>
    intro acc _
    by_cases ha : acc = [] <;> simp [splitRunsAux, ha]
  | cons c rest ih =>
    intro acc h
    have hc : isWordChar c = true := h c (List.mem_cons_self c rest)
    rw [splitRunsAux, if_pos hc, ih (c :: acc) fun x hx => h x (List.mem_cons_of_mem c hx)]
    simp

/-- C10: the tokenizer returns at most one token for every input string —
normalization strips all separators before the split into alphanumeric
runs, so the token set fed to the similarity scorer has cardinality 0 or 1. -/
theorem extract_tokens_at_most_one (s : String) :
    (extract_tokens s).length ≤ 1 ∧ (tokensOf s).card ≤ 1 := by
  have key : ∀ l : List Char, (∀ c ∈ l, isWordChar c = true) →
      (((splitRuns l).map fun r => String.mk r).filter
        fun t => !(stopwords.contains t)).length ≤ 1 := by
    intro l hw
    unfold splitRuns
    rw [splitRunsAux_all_word l [] hw]
    by_cases hnil : l = []
    · simp [hnil]
    · simp only [hnil, and_true, if_false, List.reverse_nil, List.nil_append]
      refine le_trans (List.length_filter_le _ _) ?_
      simp
  have h1 : (extract_tokens s).length ≤ 1 :=
    key (normalizeL (stripParens s.toList)) fun c hc => mem_normalizeL_word hc
  exact ⟨h1, le_trans (List.toFinset_card_le _) h1⟩

/-! ### Similarity scorer lemmas (claims C5 and C6) -/

lemma sameClass_symm (a b : String) : sameClass a b = sameClass b a := by
  unfold sameClass
  congr 1
  funext kc
  exact Bool.and_comm _ _

lemma semantic_matches_comm (t1 t2 : Finset String) :
    semantic_matches t1 t2 = semantic_matches t2 t1 := by
  unfold semantic_matches
  rw [Finset.sum_comm]
  refine Finset.sum_congr rfl fun b _ => Finset.sum_congr rfl fun a _ => ?_
  refine if_congr (and_congr ne_comm ?_) rfl rfl
  rw [sameClass_symm]

lemma semantic_similarity_def (a b : String) :
    semantic_similarity a b =
      if tokensOf a = ∅ ∨ tokensOf b = ∅ then 0
      else
        min ((if 0 < (tokensOf a ∪ tokensOf b).card then
            mkRat ((tokensOf a ∩ tokensOf b).card : ℤ) ((tokensOf a ∪ tokensOf b).card)
          else 0)
          + min (mkRat (semantic_matches (tokensOf a) (tokensOf b) : ℤ) 10) (mkRat 3 10)) 1 :=
  rfl

lemma mkRat_cast_nonneg (n d : ℕ) : 0 ≤ mkRat (n : ℤ) d := by
  rw [Rat.mkRat_eq_div]
  positivity

lemma boost_nonneg (t1 t2 : Finset String) :
    0 ≤ min (mkRat (semantic_matches t1 t2 : ℤ) 10) (mkRat 3 10) := by
  refine le_min (mkRat_cast_nonneg _ _) ?_
  rw [Rat.mkRat_eq_div]
  norm_num

/-- C5: the token-similarity score is symmetric, always lies in the
interval from 0 to 1, and is 0 whenever either token set is empty. -/
theorem similarity_symm_bounded (a b : String) :
    semantic_similarity a b = semantic_similarity b a
    ∧ 0 ≤ semantic_similarity a b ∧ semantic_similarity a b ≤ 1
    ∧ ((tokensOf a = ∅ ∨ tokensOf b = ∅) → semantic_similarity a b = 0) := by
  refine ⟨?_, ?_, ?_, ?_⟩
  · rw [semantic_similarity_def a b, semantic_similarity_def b a]
    by_cases h : tokensOf a = ∅ ∨ tokensOf b = ∅
    · rw [if_pos h, if_pos h.symm]
    · have h2 : ¬(tokensOf b = ∅ ∨ tokensOf a = ∅) := fun hc => h hc.symm
      rw [if_neg h, if_neg h2, Finset.inter_comm (tokensOf a), Finset.union_comm (tokensOf a),
        semantic_matches_comm (tokensOf a)]
  · rw [semantic_similarity_def]
    by_cases h : tokensOf a = ∅ ∨ tokensOf b = ∅
    · rw [if_pos h]
    · rw [if_neg h]
      refine le_min (add_nonneg ?_ (boost_nonneg _ _)) (by norm_num)
      by_cases hu : 0 < (tokensOf a ∪ tokensOf b).card
      · rw [if_pos hu]; exact mkRat_cast_nonneg _ _
      · rw [if_neg hu]
  · rw [semantic_similarity_def]
    by_cases h : tokensOf a = ∅ ∨ tokensOf b = ∅
    · rw [if_pos h]; norm_num
    · rw [if_neg h]; exact min_le_right _ _
  · intro h
    rw [semantic_similarity_def, if_pos h]

/-- The Jaccard part of the score as the specification words it:
intersection size over union size of the two token sets. -/
def jaccard_spec (a b : String) : ℚ :=
  ((tokensOf a ∩ tokensOf b).card : ℚ) / ((tokensOf a ∪ tokensOf b).card : ℚ)

/-- The semantic bonus as the specification words it: 0.1 for every pair of
distinct tokens, one from each set, lying in a common semantic-equivalence
class, capped at 0.3. -/
def bonus_spec (a b : String) : ℚ :=
  min ((((tokensOf a ×ˢ tokensOf b).filter fun p =>
      p.1 ≠ p.2 ∧ sameClass p.1 p.2).card : ℚ) * (1 / 10)) (3 / 10)

lemma semantic_matches_eq_card (t1 t2 : Finset String) :
    semantic_matches t1 t2 =
      ((t1 ×ˢ t2).filter fun p => p.1 ≠ p.2 ∧ sameClass p.1 p.2).card := by
  unfold semantic_matches
  rw [Finset.card_filter, Finset.sum_product]

/-- C6: the token-similarity score equals the capped formula
min(jaccard + bonus, 1) with bonus = min(0.1 times the number of
semantically equivalent cross pairs, 0.3). -/
theorem similarity_eq_spec_formula (a b : String) :
    semantic_similarity a b = min (jaccard_spec a b + bonus_spec a b) 1 := by
  rw [semantic_similarity_def]
  by_cases h : tokensOf a = ∅ ∨ tokensOf b = ∅
  · rw [if_pos h]
    have hj : jaccard_spec a b = 0 := by
      unfold jaccard_spec
      rcases h with h | h <;> simp [h]
    have hb : bonus_spec a b = 0 := by
      unfold bonus_spec
      rcases h with h | h <;>
        simp [h, min_eq_left (by norm_num : (0 : ℚ) ≤ 3 / 10)]
    rw [hj, hb]
    norm_num
  · rw [if_neg h]
    push_neg at h
    have hu : 0 < (tokensOf a ∪ tokensOf b).card :=
      Finset.card_pos.mpr ((Finset.nonempty_iff_ne_empty.mpr h.1).inl)
    have hdir :
        mkRat ((tokensOf a ∩ tokensOf b).card : ℤ) ((tokensOf a ∪ tokensOf b).card) =
          jaccard_spec a b := by
      unfold jaccard_spec
      rw [Rat.mkRat_eq_div]
      push_cast
      ring
    have hbon :
        min (mkRat (semantic_matches (tokensOf a) (tokensOf b) : ℤ) 10) (mkRat 3 10) =
          bonus_spec a b := by
      unfold bonus_spec
      rw [← semantic_matches_eq_card, Rat.mkRat_eq_div, Rat.mkRat_eq_div, mul_one_div]
      push_cast
      norm_num
    rw [if_pos hu, hdir, hbon]

/-- C5 witness at a concrete input: the empty string has an empty token set
and scores 0 against "speed". -/
theorem similarity_witness :
    semantic_similarity "" "speed" = 0 ∧ 0 ≤ semantic_similarity "" "speed" := by
  have h := similarity_symm_bounded "" "speed"
  exact ⟨h.2.2.2 (Or.inl (by decide)), h.2.1⟩

/-! ### General list helpers -/

lemma mem_of_ite {α : Type _} {c : Prop} [Decidable c] {l : List α} {m : α}
    (h : m ∈ if c then l else []) : c ∧ m ∈ l := by
  by_cases hc : c
  · rw [if_pos hc] at h
    exact ⟨hc, h⟩
  · rw [if_neg hc] at h
    exact absurd h (List.not_mem_nil m)

lemma length_filter_flatMap {α β : Type _} (l : List α) (f : α → List β) (p : β → Bool) :
    ((l.flatMap f).filter p).length = (l.map fun a => ((f a).filter p).length).sum := by
  induction l with
  | nil => simp
  | cons a l ih => simp [List.filter_append, ih]

lemma sum_ite_count (C : List String) (t : String) (Q : Prop) [Decidable Q] :
    (C.map fun cv => if cv = t ∧ Q then 1 else 0).sum = if Q then C.count t else 0 := by
  induction C with
  | nil => simp
  | cons cv C ih =>
    simp only [List.map_cons, List.sum_cons, ih, List.count_cons]
    by_cases hq : Q
    · by_cases hcv : cv = t <;> simp [hq, hcv] <;> omega
    · simp [hq]

lemma sum_ite_count_mul (M : List String) (s : String) (k : ℕ) (R : Prop) [Decidable R] :
    (M.map fun mv => if mv = s ∧ R then k else 0).sum = if R then M.count s * k else 0 := by
  induction M with
  | nil => simp
  | cons mv M ih =>
    simp only [List.map_cons, List.sum_cons, ih, List.count_cons]
    by_cases hr : R
    · by_cases hmv : mv = s <;> simp [hr, hmv, Nat.add_mul] <;> ring
    · simp [hr]

/-! ### Exact pass (claim C4) -/

lemma exact_block_len (mv cv s t : String) :
    ((if normalize_text mv = normalize_text cv then [mkExact mv cv] else []).filter
        fun m => m.motec == s && m.carsim == t).length
      = if cv = t ∧ mv = s ∧ normalize_text s = normalize_text t then 1 else 0 := by
  by_cases h1 : mv = s <;> by_cases h2 : cv = t <;>
    by_cases hn : normalize_text mv = normalize_text cv <;>
    simp_all [mkExact]

/-- C4: the Exact pass emits, for each occurrence of a source/target pair
with equal normalized names, exactly one Match, and that Match has
confidence 1.0 and type Exact; pairs with differing normalized names emit
nothing. -/
theorem exact_pass_spec (M C : List String) (s t : String) :
    ((match_exact_names M C).filter fun m => m.motec == s && m.carsim == t).length
      = (if normalize_text s = normalize_text t then M.count s * C.count t else 0)
    ∧ ∀ m ∈ match_exact_names M C,
        m.conf = 1 ∧ m.mtype = "Exact" ∧ normalize_text m.motec = normalize_text m.carsim := by
  constructor
  · unfold match_exact_names
    rw [length_filter_flatMap]
    simp only [length_filter_flatMap, exact_block_len, sum_ite_count]
    rw [sum_ite_count_mul]
  · intro m hm
    simp only [match_exact_names, List.mem_flatMap] at hm
    obtain ⟨mv, -, hm⟩ := hm
    obtain ⟨cv, -, hm⟩ := hm
    obtain ⟨hn, hm⟩ := mem_of_ite hm
    rw [List.mem_singleton] at hm
    subst hm
    exact ⟨rfl, rfl, hn⟩

/-- C4 witness: source "Steer_SW" against target "Steer_SW" yields exactly
one Match, of confidence 1.0 and type Exact. -/
theorem exact_pass_witness :
    ((match_exact_names ["Steer_SW"] ["Steer_SW"]).filter
        fun m => m.motec == "Steer_SW" && m.carsim == "Steer_SW").length = 1
    ∧ (mkExact "Steer_SW" "Steer_SW").conf = 1
    ∧ (mkExact "Steer_SW" "Steer_SW").mtype = "Exact" := by
  have h := exact_pass_spec ["Steer_SW"] ["Steer_SW"] "Steer_SW" "Steer_SW"
  refine ⟨?_, (h.2 _ (by decide)).1, (h.2 _ (by decide)).2.1⟩
  rw [h.1]
  decide

/-! ### Suspension rule (claim C7) -/

lemma suspension_motec {C : List String} {d : List (String × String)} {mv : String}
    {m : Match} (h : m ∈ suspension_candidates C d mv) : m.motec = mv := by
  simp only [suspension_candidates] at h
  split at h
  · split at h
    · rw [List.mem_append] at h
      rcases h with h | h <;>
        · obtain ⟨-, h⟩ := mem_of_ite h
          rw [List.mem_singleton] at h
          subst h
          rfl
    · exact absurd h (List.not_mem_nil m)
  · exact absurd h (List.not_mem_nil m)

lemma match_suspension_cons (mv : String) (M C : List String) (d : List (String × String)) :
    match_suspension (mv :: M) C d =
      suspension_candidates C d mv ++ match_suspension M C d := by
  simp [match_suspension]

lemma match_suspension_filter {M C : List String} {d : List (String × String)} {v : String}
    (h : M.count v = 1) :
    (match_suspension M C d).filter (fun m => m.motec == v) = suspension_candidates C d v := by
  induction M with
  | nil => simp at h
  | cons mv M ih =>
    rw [List.count_cons] at h
    rw [match_suspension_cons, List.filter_append]
    by_cases hmv : mv = v
    · subst hmv
      have hM : M.count mv = 0 := by simp at h; omega
      have h1 : (suspension_candidates C d mv).filter (fun m => m.motec == mv) =
          suspension_candidates C d mv :=
        List.filter_eq_self.mpr fun m hm => by simp [suspension_motec hm]
      have h2 : (match_suspension M C d).filter (fun m => m.motec == mv) = [] := by
        refine List.filter_eq_nil_iff.mpr fun m hm => ?_
        rw [match_suspension, List.mem_flatMap] at hm
        obtain ⟨u, hu, hm⟩ := hm
        have hmu := suspension_motec hm
        have hne : u ≠ mv := fun he => (List.count_eq_zero.mp hM) (he ▸ hu)
        simp [hmu, hne]
      rw [h1, h2, List.append_nil]
    · have hM : M.count v = 1 := by simp [hmv] at h; omega
      have h1 : (suspension_candidates C d mv).filter (fun m => m.motec == v) = [] :=
        List.filter_eq_nil_iff.mpr fun m hm => by simp [suspension_motec hm, hmv]
      rw [h1, List.nil_append, ih hM]

/-- C7: a source variable containing "Susp Pos" with a resolvable position,
with both `Jnc_<pos>` and `CmpT_<pos>` present in the target headers,
yields exactly two Matches from the suspension rule — primary jounce at
confidence 1.0 and secondary total compression at 0.95 — and both reach
the full pre-resolution MatchSet of `run_matching`. -/
theorem suspension_rule_two_matches (M C : List String) (d : List (String × String))
    (v : String)
    (hcount : M.count v = 1)
    (hsub : containsStr "Susp Pos" v = true)
    (hpos : extract_position v ≠ "")
    (hj : ("Jnc_" ++ map_position_motec_to_carsim (extract_position v)) ∈ C)
    (hcmp : ("CmpT_" ++ map_position_motec_to_carsim (extract_position v)) ∈ C) :
    suspension_candidates C d v =
      [⟨v, "Jnc_" ++ map_position_motec_to_carsim (extract_position v), 1, "Suspension",
        get_dictionary_description d
          ("Jnc_" ++ map_position_motec_to_carsim (extract_position v)),
        "Jounce (compression) - " ++ extract_position v ++ "=" ++
          map_position_motec_to_carsim (extract_position v)⟩,
       ⟨v, "CmpT_" ++ map_position_motec_to_carsim (extract_position v), mkRat 95 100,
        "Suspension",
        get_dictionary_description d
          ("CmpT_" ++ map_position_motec_to_carsim (extract_position v)),
        "Total compression - " ++ extract_position v ++ "=" ++
          map_position_motec_to_carsim (extract_position v)⟩]
    ∧ (match_suspension M C d).filter (fun m => m.motec == v) = suspension_candidates C d v
    ∧ ∀ m ∈ suspension_candidates C d v, m ∈ run_matching M C d := by
  have hv : v ∈ M := List.count_pos_iff.mp (by omega)
  refine ⟨?_, match_suspension_filter hcount, ?_⟩
  · simp only [suspension_candidates, hsub, if_true, hpos, ne_eq, not_false_iff, hj, hcmp]
    simp
  · intro m hm
    have hms : m ∈ match_suspension M C d := List.mem_flatMap.mpr ⟨v, hv, hm⟩
    simp only [run_matching, List.mem_append]
    tauto

/-- C7 witness: "FL Susp Pos" with targets `Jnc_L1` and `CmpT_L1` present;
the primary jounce Match is in the full pre-resolution MatchSet. -/
theorem suspension_rule_witness :
    (⟨"FL Susp Pos", "Jnc_L1", 1, "Suspension", "Jnc_L1",
      "Jounce (compression) - FL=L1"⟩ : Match)
      ∈ run_matching ["FL Susp Pos"] ["Jnc_L1", "CmpT_L1"] [] := by
  have h := suspension_rule_two_matches ["FL Susp Pos"] ["Jnc_L1", "CmpT_L1"] []
    "FL Susp Pos" (by decide) (by decide) (by decide) (by decide) (by decide)
  exact h.2.2 _ (by decide)

/-! ### Every rule-pass Match targets an existing header (claim C8) -/

lemma exact_carsim {M C : List String} {m : Match}
    (h : m ∈ match_exact_names M C) : m.carsim ∈ C := by
  simp only [match_exact_names, List.mem_flatMap] at h
  obtain ⟨mv, -, h⟩ := h
  obtain ⟨cv, hcv, h⟩ := h
  obtain ⟨-, h⟩ := mem_of_ite h
  rw [List.mem_singleton] at h
  subst h
  exact hcv

lemma accel_carsim {M C : List String} {d : List (String × String)} {m : Match}
    (h : m ∈ match_accelerations M C d) : m.carsim ∈ C := by
  simp only [match_accelerations, List.mem_flatMap] at h
  obtain ⟨pat, -, h⟩ := h
  obtain ⟨mv, -, h⟩ := h
  obtain ⟨-, h⟩ := mem_of_ite h
  rw [List.mem_flatMap] at h
  obtain ⟨cv, -, h⟩ := h
  obtain ⟨hin, h⟩ := mem_of_ite h
  rw [List.mem_singleton] at h
  subst h
  exact hin

lemma gyro_carsim {M C : List String} {d : List (String × String)} {m : Match}
    (h : m ∈ match_gyroscopes M C d) : m.carsim ∈ C := by
  simp only [match_gyroscopes, List.mem_flatMap] at h
  obtain ⟨pat, -, h⟩ := h
  obtain ⟨mv, -, h⟩ := h
  obtain ⟨-, h⟩ := mem_of_ite h
  rw [List.mem_flatMap] at h
  obtain ⟨cv, -, h⟩ := h
  obtain ⟨hin, h⟩ := mem_of_ite h
  rw [List.mem_singleton] at h
  subst h
  exact hin

lemma wheel_carsim {M C : List String} {d : List (String × String)} {m : Match}
    (h : m ∈ match_wheel_speeds M C d) : m.carsim ∈ C := by
  simp only [match_wheel_speeds, List.mem_flatMap] at h
  obtain ⟨mv, -, h⟩ := h
  obtain ⟨-, h⟩ := mem_of_ite h
  obtain ⟨-, h⟩ := mem_of_ite h
  obtain ⟨hin, h⟩ := mem_of_ite h
  rw [List.mem_singleton] at h
  subst h
  exact hin

lemma susp_carsim {M C : List String} {d : List (String × String)} {m : Match}
    (h : m ∈ match_suspension M C d) : m.carsim ∈ C := by
  simp only [match_suspension, List.mem_flatMap] at h
  obtain ⟨mv, -, h⟩ := h
  simp only [suspension_candidates] at h
  split at h
  · split at h
    · rw [List.mem_append] at h
      rcases h with h | h <;>
        · obtain ⟨hin, h⟩ := mem_of_ite h
          rw [List.mem_singleton] at h
          subst h
          exact hin
    · exact absurd h (List.not_mem_nil m)
  · exact absurd h (List.not_mem_nil m)

lemma brake_carsim {M C : List String} {d : List (String × String)} {m : Match}
    (h : m ∈ match_brake_pressure M C d) : m.carsim ∈ C := by
  simp only [match_brake_pressure, List.mem_flatMap] at h
  obtain ⟨bm, -, h⟩ := h
  obtain ⟨mv, -, h⟩ := h
  obtain ⟨-, h⟩ := mem_of_ite h
  rw [List.mem_flatMap] at h
  obtain ⟨pos, -, h⟩ := h
  obtain ⟨hin, h⟩ := mem_of_ite h
  rw [List.mem_singleton] at h
  subst h
  exact hin

lemma rotor_carsim {M C : List String} {d : List (String × String)} {m : Match}
    (h : m ∈ match_rotor_temperatures M C d) : m.carsim ∈ C := by
  simp only [match_rotor_temperatures, List.mem_flatMap] at h
  obtain ⟨mv, -, h⟩ := h
  obtain ⟨-, h⟩ := mem_of_ite h
  obtain ⟨-, h⟩ := mem_of_ite h
  obtain ⟨hin, h⟩ := mem_of_ite h
  rw [List.mem_singleton] at h
  subst h
  exact hin

lemma engine_carsim {M C : List String} {d : List (String × String)} {m : Match}
    (h : m ∈ match_engine_powertrain M C d) : m.carsim ∈ C := by
  simp only [match_engine_powertrain, List.mem_flatMap] at h
  obtain ⟨em, -, h⟩ := h
  obtain ⟨mv, -, h⟩ := h
  obtain ⟨-, h⟩ := mem_of_ite h
  rw [List.mem_flatMap] at h
  obtain ⟨cc, -, h⟩ := h
  obtain ⟨hin, h⟩ := mem_of_ite h
  rw [List.mem_singleton] at h
  subst h
  exact hin

lemma gps_carsim {M C : List String} {d : List (String × String)} {m : Match}
    (h : m ∈ match_gps M C d) : m.carsim ∈ C := by
  simp only [match_gps, List.mem_flatMap] at h
  obtain ⟨em, -, h⟩ := h
  obtain ⟨mv, -, h⟩ := h
  obtain ⟨-, h⟩ := mem_of_ite h
  rw [List.mem_flatMap] at h
  obtain ⟨cc, -, h⟩ := h
  obtain ⟨hin, h⟩ := mem_of_ite h
  rw [List.mem_singleton] at h
  subst h
  exact hin

lemma velocity_carsim {M C : List String} {d : List (String × String)} {m : Match}
    (h : m ∈ match_velocity M C d) : m.carsim ∈ C := by
  simp only [match_velocity, List.mem_flatMap] at h
  obtain ⟨em, -, h⟩ := h
  obtain ⟨mv, -, h⟩ := h
  obtain ⟨-, h⟩ := mem_of_ite h
  rw [List.mem_flatMap] at h
  obtain ⟨cc, -, h⟩ := h
  obtain ⟨hin, h⟩ := mem_of_ite h
  rw [List.mem_singleton] at h
  subst h
  exact hin

lemma fuel_carsim {M C : List String} {d : List (String × String)} {m : Match}
    (h : m ∈ match_fuel M C d) : m.carsim ∈ C := by
  simp only [match_fuel, List.mem_flatMap] at h
  obtain ⟨em, -, h⟩ := h
  obtain ⟨mv, -, h⟩ := h
  obtain ⟨-, h⟩ := mem_of_ite h
  obtain ⟨hin, h⟩ := mem_of_ite h
  rw [List.mem_singleton] at h
  subst h
  exact hin

lemma distance_carsim {M C : List String} {d : List (String × String)} {m : Match}
    (h : m ∈ match_distance M C d) : m.carsim ∈ C := by
  simp only [match_distance, List.mem_flatMap] at h
  obtain ⟨em, -, h⟩ := h
  obtain ⟨mv, -, h⟩ := h
  obtain ⟨-, h⟩ := mem_of_ite h
  obtain ⟨hin, h⟩ := mem_of_ite h
  rw [List.mem_singleton] at h
  subst h
  exact hin

lemma steering_carsim {M C : List String} {d : List (String × String)} {m : Match}
    (h : m ∈ match_steering M C d) : m.carsim ∈ C := by
  simp only [match_steering, List.mem_flatMap] at h
  obtain ⟨mv, -, h⟩ := h
  obtain ⟨-, h⟩ := mem_of_ite h
  rw [List.mem_flatMap] at h
  obtain ⟨sv, -, h⟩ := h
  obtain ⟨hin, h⟩ := mem_of_ite h
  rw [List.mem_singleton] at h
  subst h
  exact hin

/-- C8: every Match emitted by the matching passes refers to a target name
present in the destination (CarSim) header list; a candidate absent from
the destination schema produces no Match (and, the functions being total,
no error). -/
theorem rule_pass_target_in_headers (M C : List String) (d : List (String × String))
    (m : Match) (h : m ∈ run_matching M C d) : m.carsim ∈ C := by
  simp only [run_matching, List.mem_append, or_assoc] at h
  rcases h with h | h | h | h | h | h | h | h | h | h | h | h | h
  exacts [exact_carsim h, accel_carsim h, gyro_carsim h, wheel_carsim h, susp_carsim h,
    brake_carsim h, rotor_carsim h, engine_carsim h, gps_carsim h, velocity_carsim h,
    fuel_carsim h, distance_carsim h, steering_carsim h]

/-- C8 witness: the one Match of a small concrete run targets a name that
is in the destination header list. -/
theorem rule_pass_target_witness :
    (mkExact "Steer_SW" "Steer_SW").carsim ∈ ["Steer_SW"] :=
  rule_pass_target_in_headers ["Steer_SW"] ["Steer_SW"] [] _ (by decide)

/-! ### Resolver/Deduplicator (claims C1 and C2) -/

lemma dedup_walk_perm : ∀ (l : List Match) (seen : List String),
    ((dedup_walk l seen).1 ++ (dedup_walk l seen).2).Perm l := by
  intro l
  induction l with
  | nil => intro seen; simp [dedup_walk]
  | cons m rest ih =>
    intro seen
    by_cases hc : m.carsim ∈ seen
    · simp only [dedup_walk, if_pos hc]
      exact List.perm_middle.trans ((ih seen).cons m)
    · simp only [dedup_walk, if_neg hc, List.cons_append]
      exact (ih _).cons m

lemma dedup_walk_nodup : ∀ (l : List Match) (seen : List String),
    ((dedup_walk l seen).1.map Match.carsim).Nodup
    ∧ ∀ c ∈ (dedup_walk l seen).1.map Match.carsim, c ∉ seen := by
  intro l
  induction l with
  | nil => intro seen; simp [dedup_walk]
  | cons m rest ih =>
    intro seen
    by_cases hc : m.carsim ∈ seen
    · simp only [dedup_walk, if_pos hc]
      exact ih seen
    · simp only [dedup_walk, if_neg hc, List.map_cons, List.nodup_cons]
      refine ⟨⟨fun hmem => ?_, (ih (m.carsim :: seen)).1⟩, ?_⟩
      · exact ((ih (m.carsim :: seen)).2 _ hmem) (List.mem_cons_self _ _)
      · intro c hcmem
        rcases List.mem_cons.mp hcmem with rfl | hcm
        · exact hc
        · exact fun hcs => ((ih (m.carsim :: seen)).2 c hcm) (List.mem_cons_of_mem _ hcs)

lemma dedup_walk_skipped : ∀ (l : List Match) (seen : List String),
    ∀ m ∈ (dedup_walk l seen).2,
      m.carsim ∈ seen ∨ m.carsim ∈ (dedup_walk l seen).1.map Match.carsim := by
  intro l
  induction l with
  | nil => intro seen m hm; simp [dedup_walk] at hm
  | cons a rest ih =>
    intro seen m hm
    by_cases hc : a.carsim ∈ seen
    · simp only [dedup_walk, if_pos hc] at hm ⊢
      rcases List.mem_cons.mp hm with rfl | hm
      · exact Or.inl hc
      · exact ih seen m hm
    · simp only [dedup_walk, if_neg hc, List.map_cons] at hm ⊢
      rcases ih _ m hm with h | h
      · rcases List.mem_cons.mp h with he | hs
        · exact Or.inr (he ▸ List.mem_cons_self _ _)
        · exact Or.inl hs
      · exact Or.inr (List.mem_cons_of_mem _ h)

/-- C1: after the resolver step no two kept Matches share a CarSim target
name, every kept Match clears the caller-supplied threshold, and every
later Match reusing an already-kept target sits on the skipped list with
reason "Duplicate CarSim output" (still clearing the threshold) rather
than being deleted: kept and skipped together exhaust the
threshold-filtered matches. -/
theorem resolver_invariants (t : ℚ) (ms : List Match) :
    ((export_high_confidence_matches t ms).1.map Match.carsim).Nodup
    ∧ (∀ m ∈ (export_high_confidence_matches t ms).1, t ≤ m.conf)
    ∧ (∀ s ∈ (export_high_confidence_matches t ms).2,
        s.reason = "Duplicate CarSim output"
        ∧ s.carsim ∈ (export_high_confidence_matches t ms).1.map Match.carsim
        ∧ t ≤ s.conf)
    ∧ (export_high_confidence_matches t ms).1.length
        + (export_high_confidence_matches t ms).2.length
      = (ms.filter fun m => decide (t ≤ m.conf)).length := by
  have hperm : ((ms.filter fun m => decide (t ≤ m.conf)).insertionSort confGE).Perm
      (ms.filter fun m => decide (t ≤ m.conf)) := List.perm_insertionSort _ _
  have hwalkperm := dedup_walk_perm
    ((ms.filter fun m => decide (t ≤ m.conf)).insertionSort confGE) []
  have hmemconf : ∀ m ∈ (ms.filter fun m => decide (t ≤ m.conf)).insertionSort confGE,
      t ≤ m.conf := by
    intro m hm
    exact of_decide_eq_true (List.mem_filter.mp (hperm.mem_iff.mp hm)).2
  have hexp1 : (export_high_confidence_matches t ms).1 =
      (dedup_walk ((ms.filter fun m => decide (t ≤ m.conf)).insertionSort confGE) []).1 := rfl
  have hexp2 : (export_high_confidence_matches t ms).2 =
      ((dedup_walk ((ms.filter fun m => decide (t ≤ m.conf)).insertionSort confGE) []).2.map
        fun m => ⟨m.motec, m.carsim, m.conf, "Duplicate CarSim output"⟩) := rfl
  rw [hexp1, hexp2]
  refine ⟨(dedup_walk_nodup _ []).1, ?_, ?_, ?_⟩
  · intro m hm
    exact hmemconf m (hwalkperm.mem_iff.mp (List.mem_append_left _ hm))
  · intro s hsk
    rw [List.mem_map] at hsk
    obtain ⟨m, hm, rfl⟩ := hsk
    refine ⟨rfl, ?_, ?_⟩
    · rcases dedup_walk_skipped _ [] m hm with h | h
      · exact absurd h (List.not_mem_nil _)
      · exact h
    · exact hmemconf m (hwalkperm.mem_iff.mp (List.mem_append_right _ hm))
  · rw [List.length_map, ← List.length_append]
    exact hwalkperm.length_eq.trans hperm.length_eq

/-- C1 witness: for the concrete Jnc_L1 pair at threshold 0.9, the kept
match clears the threshold and the skipped duplicate references the kept
target. -/
theorem resolver_invariants_witness :
    mkRat 9 10 ≤
      (⟨"FL Susp Pos", "Jnc_L1", 1, "Suspension", "Jnc_L1",
        "Jounce (compression) - FL=L1"⟩ : Match).conf
    ∧ ("Jnc_L1" : String) ∈
      (export_high_confidence_matches (mkRat 9 10) demo_matches).1.map Match.carsim := by
  have h := resolver_invariants (mkRat 9 10) demo_matches
  refine ⟨h.2.1 _ (by decide), ?_⟩
  have h2 := h.2.2.1
    ⟨"FL Susp Pos 2", "Jnc_L1", mkRat 95 100, "Duplicate CarSim output"⟩ (by decide)
  exact h2.2.1

lemma dedup_walk_kept_length : ∀ (l : List Match) (seen : List String),
    (dedup_walk l seen).1.length
      = ((l.map Match.carsim).toFinset \ seen.toFinset).card := by
  intro l
  induction l with
  | nil => intro seen; simp [dedup_walk]
  | cons m rest ih =>
    intro seen
    by_cases hc : m.carsim ∈ seen
    · simp only [dedup_walk, if_pos hc]
      rw [ih]
      congr 1
      ext x
      simp only [List.map_cons, List.toFinset_cons, Finset.mem_sdiff, Finset.mem_insert,
        List.mem_toFinset]
      constructor
      · rintro ⟨hx, hns⟩
        exact ⟨Or.inr hx, hns⟩
      · rintro ⟨rfl | hx, hns⟩
        · exact absurd hc hns
        · exact ⟨hx, hns⟩
    · simp only [dedup_walk, if_neg hc, List.length_cons]
      rw [ih]
      have hkey : ((m :: rest).map Match.carsim).toFinset \ seen.toFinset
          = insert m.carsim
              ((rest.map Match.carsim).toFinset \ (m.carsim :: seen).toFinset) := by
        ext x
        simp only [List.map_cons, List.toFinset_cons, Finset.mem_sdiff, Finset.mem_insert,
          List.mem_toFinset, List.mem_cons]
        constructor
        · rintro ⟨rfl | hx, hns⟩
          · exact Or.inl rfl
          · by_cases hxc : x = m.carsim
            · exact Or.inl hxc
            · exact Or.inr ⟨hx, fun hor => hor.elim hxc hns⟩
        · rintro (rfl | ⟨hx, hns⟩)
          · exact ⟨Or.inl rfl, hc⟩
          · exact ⟨Or.inr hx, fun hs => hns (Or.inr hs)⟩
      rw [hkey, Finset.card_insert_of_not_mem (by simp)]

lemma export_kept_card (t : ℚ) (ms : List Match) :
    (export_high_confidence_matches t ms).1.length
      = ((ms.filter fun m => decide (t ≤ m.conf)).map Match.carsim).toFinset.card := by
  have heq : (export_high_confidence_matches t ms).1 =
      (dedup_walk ((ms.filter fun m => decide (t ≤ m.conf)).insertionSort confGE) []).1 := rfl
  rw [heq, dedup_walk_kept_length]
  have hp : (((ms.filter fun m => decide (t ≤ m.conf)).insertionSort confGE).map
      Match.carsim).Perm ((ms.filter fun m => decide (t ≤ m.conf)).map Match.carsim) :=
    (List.perm_insertionSort _ _).map _
  have : (((ms.filter fun m => decide (t ≤ m.conf)).insertionSort confGE).map
      Match.carsim).toFinset
      = ((ms.filter fun m => decide (t ≤ m.conf)).map Match.carsim).toFinset := by
    ext x
    simp only [List.mem_toFinset, hp.mem_iff]
  rw [this]
  simp

/-- C2: threshold-monotonicity of the resolver — for thresholds t1 at most
t2, the kept-match count at t2 never exceeds the kept-match count at t1. -/
theorem resolver_threshold_monotone (ms : List Match) (t1 t2 : ℚ) (h : t1 ≤ t2) :
    (export_high_confidence_matches t2 ms).1.length
      ≤ (export_high_confidence_matches t1 ms).1.length := by
  rw [export_kept_card, export_kept_card]
  apply Finset.card_le_card
  intro x hx
  rw [List.mem_toFinset, List.mem_map] at hx
  rw [List.mem_toFinset, List.mem_map]
  obtain ⟨m, hm, rfl⟩ := hx
  rw [List.mem_filter] at hm
  refine ⟨m, ?_, rfl⟩
  rw [List.mem_filter]
  exact ⟨hm.1, decide_eq_true (le_trans h (of_decide_eq_true hm.2))⟩

/-- C2 witness: for the concrete Jnc_L1 pair with confidences 1.0 and 0.95,
raising the threshold from 0.9 to 0.96 does not increase the kept count. -/
theorem resolver_threshold_monotone_witness :
    (export_high_confidence_matches (mkRat 96 100) demo_matches).1.length
      ≤ (export_high_confidence_matches (mkRat 9 10) demo_matches).1.length :=
  resolver_threshold_monotone demo_matches (mkRat 9 10) (mkRat 96 100) (by decide)

/-! ### Dictionary pass and semantic pass claim-set exclusion (claim C9) -/

lemma dict_inner_mono (d : List (String × String)) (s : String) :
    ∀ (ts : List String) (st : ClaimState) {x : String},
      x ∈ st.claimedS → x ∈ (dict_inner d s ts st).1.claimedS := by
  intro ts
  induction ts with
  | nil => intro st x hx; exact hx
  | cons t ts ih =>
    intro st x hx
    simp only [dict_inner]
    split
    · exact ih _ (List.mem_cons_of_mem _ hx)
    · exact ih _ hx

lemma dictionary_pass_mono (d : List (String × String)) :
    ∀ (ss targets : List String) (st : ClaimState) {x : String},
      x ∈ st.claimedS → x ∈ (dictionary_pass d ss targets st).1.claimedS := by
  intro ss
  induction ss with
  | nil => intro targets st x hx; exact hx
  | cons s ss ih =>
    intro targets st x hx
    simp only [dictionary_pass]
    exact ih _ _ (dict_inner_mono d s _ _ hx)

lemma dict_inner_emitted (d : List (String × String)) (s : String) :
    ∀ (ts : List String) (st : ClaimState) (m : Match),
      m ∈ (dict_inner d s ts st).2 → m.motec ∈ (dict_inner d s ts st).1.claimedS := by
  intro ts
  induction ts with
  | nil => intro st m hm; exact absurd hm (List.not_mem_nil m)
  | cons t ts ih =>
    intro st m hm
    simp only [dict_inner] at hm ⊢
    by_cases hcond : s ∉ st.claimedS ∧ t ∉ st.claimedT ∧
        mkRat 1 2 < semantic_similarity (get_dictionary_description d s)
          (get_dictionary_description d t)
    · rw [if_pos hcond] at hm ⊢
      rcases List.mem_cons.mp hm with rfl | hm
      · exact dict_inner_mono d s ts ⟨s :: st.claimedS, t :: st.claimedT⟩
          (List.mem_cons_self s st.claimedS)
      · exact ih ⟨s :: st.claimedS, t :: st.claimedT⟩ m hm
    · rw [if_neg hcond] at hm ⊢
      exact ih st m hm

lemma dictionary_pass_emitted (d : List (String × String)) :
    ∀ (ss targets : List String) (st : ClaimState) (m : Match),
      m ∈ (dictionary_pass d ss targets st).2 →
        m.motec ∈ (dictionary_pass d ss targets st).1.claimedS := by
  intro ss
  induction ss with
  | nil => intro targets st m hm; exact absurd hm (List.not_mem_nil m)
  | cons s ss ih =>
    intro targets st m hm
    simp only [dictionary_pass] at hm ⊢
    rcases List.mem_append.mp hm with hm | hm
    · exact dictionary_pass_mono d ss targets _ (dict_inner_emitted d s targets st m hm)
    · exact ih targets _ m hm

lemma semantic_pass_unclaimed (d : List (String × String)) (sources targets : List String)
    (st : ClaimState) (m : Match) (h : m ∈ semantic_pass d sources targets st) :
    m.motec ∉ st.claimedS := by
  simp only [semantic_pass, List.mem_flatMap] at h
  obtain ⟨s, -, h⟩ := h
  by_cases hs : s ∈ st.claimedS
  · rw [if_pos hs] at h
    exact absurd h (List.not_mem_nil m)
  · rw [if_neg hs] at h
    rw [List.mem_map] at h
    obtain ⟨tt, -, rfl⟩ := h
    exact hs

/-- C9: the semantic pass never emits a Match for a source/target pair
already claimed by the dictionary pass of the same run — dictionary
emission claims the source name, claims only grow, and the semantic pass
considers only still-unclaimed sources and targets. -/
theorem semantic_respects_dictionary_claims (d : List (String × String))
    (sources targets : List String) (st0 : ClaimState) (m md : Match)
    (hm : m ∈ semantic_pass d sources targets (dictionary_pass d sources targets st0).1)
    (hmd : md ∈ (dictionary_pass d sources targets st0).2) :
    (m.motec, m.carsim) ≠ (md.motec, md.carsim) := by
  intro he
  have h1 := semantic_pass_unclaimed d sources targets _ m hm
  have h2 := dictionary_pass_emitted d sources targets st0 md hmd
  have h3 : m.motec = md.motec := congrArg Prod.fst he
  exact h1 (h3 ▸ h2)

lemma dict_eval :
    dictionary_pass [("speed", "zzz")] ["brake", "speed"] ["Brake", "Speed"] ⟨[], []⟩ =
      (⟨["brake"], ["Brake"]⟩,
        [⟨"brake", "Brake", 1, "Dictionary-Exact", "Brake", "Dictionary match"⟩]) := by
  with_unfolding_all rfl

lemma sem_eval :
    semantic_pass [("speed", "zzz")] ["brake", "speed"] ["Brake", "Speed"]
        ⟨["brake"], ["Brake"]⟩ =
      [⟨"speed", "Speed", 1, "Semantic", "Speed", "Semantic match"⟩] := by
  with_unfolding_all rfl

/-- C9 witness: in a run where the dictionary pass claims the pair
(brake, Brake), the semantic pass emits only the distinct pair
(speed, Speed). -/
theorem semantic_respects_dictionary_witness :
    (("speed" : String), ("Speed" : String)) ≠ (("brake" : String), ("Brake" : String)) := by
  have h := semantic_respects_dictionary_claims [("speed", "zzz")] ["brake", "speed"]
    ["Brake", "Speed"] ⟨[], []⟩
    ⟨"speed", "Speed", 1, "Semantic", "Speed", "Semantic match"⟩
    ⟨"brake", "Brake", 1, "Dictionary-Exact", "Brake", "Dictionary match"⟩
    (by
      rw [show (dictionary_pass [("speed", "zzz")] ["brake", "speed"] ["Brake", "Speed"]
          ⟨[], []⟩).1 = (⟨["brake"], ["Brake"]⟩ : ClaimState) from congrArg Prod.fst dict_eval,
        sem_eval]
      exact List.mem_singleton.mpr rfl)
    (by
      rw [show (dictionary_pass [("speed", "zzz")] ["brake", "speed"] ["Brake", "Speed"]
          ⟨[], []⟩).2 = [⟨"brake", "Brake", 1, "Dictionary-Exact", "Brake",
            "Dictionary match"⟩] from congrArg Prod.snd dict_eval]
      exact List.mem_singleton.mpr rfl)
  exact h

end TelemetryMatcher
